import Mathlib

/-!
Verification of the `eval_metrics` information-retrieval metric library
(headers `irm.hpp` and `irm/trec.hpp`).

The C++ sources are shallow-embedded: `double` arithmetic is idealized
as exact rational arithmetic over `ℚ`, machine integers (`int`,
`ptrdiff_t`) are modelled as `ℤ` with the relevant bounds (`INT_MAX`,
`PTRDIFF_MAX`) kept explicit, strings are Lean `String`s (whose order is
the same lexicographic character order as `std::string`'s), functions
that throw `trec_format_error` are modelled in `Except String` carrying
the message passed to the exception constructor, and the `std::map` /
`std::unordered_map` containers are modelled as association lists
(sorted for `std::map`).
-/

/-! ## Weighted-precision metrics (`irm.hpp`) -/

/-- Maximal value of a 64-bit `ptrdiff_t`, the index of the `end()`
iterator of an `irm::series` and the value reported by its `size()`. -/
def ptrdiffMax : ℤ := 2 ^ 63 - 1

/-- Maximal value of `int` (`std::numeric_limits<int>::max()`), the
default cutoff of `weighted_precision`. -/
def intMax : ℤ := 2 ^ 31 - 1

/-- A weight range handed to `weighted_precision`: either a materialized
`std::vector<double>` or an `irm::series<double>` driven by a generator
function. -/
inductive WeightRange where
  | fin : List ℚ → WeightRange
  | ser : (ℕ → ℚ) → WeightRange

/-- The `size()` used by `weighted_precision::operator()`: the vector
length, or `PTRDIFF_MAX` for a `series`. -/
def WeightRange.size : WeightRange → ℤ
  | .fin ws => ws.length
  | .ser _ => ptrdiffMax

/-- Dereferencing the weight iterator at position `i`: element `i` of
the vector, or `f i` for a `series` with generator `f`.  (The `getD`
default is never reached: the evaluation cutoff is clamped to the
vector's length.) -/
def WeightRange.wAt : WeightRange → ℕ → ℚ
  | .fin ws, i => ws.getD i 0
  | .ser f, i => f i

/-- The `irm::weighted_precision` object: a weight range, a cutoff and a
relevance transform (`int` relevance to a numeric factor). -/
structure weighted_precision where
  weights : WeightRange
  cutoff : ℤ
  transform : ℤ → ℚ

/-- The `std::inner_product` call in `weighted_precision::operator()`:
walk the weight iterator (position `i`) and the relevance iterator in
step for `fuel` steps, accumulating `acc + weight(i) * transform(r)`
left to right, starting from `0.0`.  The `[]`-with-positive-fuel case is
the relevance iterator running past `last`, which the cutoff clamp rules
out (it returns the accumulator so the model stays total). -/
def innerProd (w : WeightRange) (t : ℤ → ℚ) : ℕ → List ℤ → ℕ → ℚ → ℚ
  | _, _, 0, acc => acc
  | _, [], _ + 1, acc => acc
  | i, r :: rs, fuel + 1, acc => innerProd w t (i + 1) rs fuel (acc + w.wAt i * t r)

/-- `weighted_precision::operator()(first, last)`:
`cutoff = min(cutoff_, distance(first, last))`, then
`cutoff = min(cutoff, weights_.size())`, then the inner product of the
first `cutoff` weights with the transformed relevance values. -/
def weighted_precision.eval (wp : weighted_precision) (rel : List ℤ) : ℚ :=
  innerProd wp.weights wp.transform 0 rel
    (min (min wp.cutoff (rel.length : ℤ)) wp.weights.size).toNat 0

/-- The relevance transform `[](const auto& r) { return r > 0 ? 1 : 0; }`
used by both metric factories. -/
def binaryIndicator (r : ℤ) : ℚ := if 0 < r then 1 else 0

/-- `irm::precision_at(k)`: a vector of `k` copies of the weight `1/k`,
cutoff `k`, binary relevance indicator.  (For `k = 0` the weight
expression `1.0/k` is never read, since the vector is empty; over `ℚ`
the expression `1/0` denotes `0`.) -/
def precision_at (k : ℤ) : weighted_precision :=
  ⟨.fin (List.replicate k.toNat (1 / (k : ℚ))), k, binaryIndicator⟩

/-- `irm::rank_biased_precision(persistance)`: the infinite series with
weight `(1 - persistance) * persistance^n` at index `n`, the default
cutoff `INT_MAX`, binary relevance indicator. -/
def rank_biased_precision (persistance : ℚ) : weighted_precision :=
  ⟨.ser (fun n => (1 - persistance) * persistance ^ n), intMax, binaryIndicator⟩

/-! ## TREC line parsing (`irm/trec.hpp`)

A line is represented by its list of whitespace-separated tokens, which
is exactly what the `istringstream` extraction loop in
`trec_result::from` / `trec_rel::from` produces (tokens are nonempty and
contain no whitespace; an empty or whitespace-only line yields `[]`). -/

/-- Whitespace recognised by `strtol`/`strtod` before the number. -/
def isSpaceChar (c : Char) : Bool :=
  c = ' ' || c = '\t' || c = '\n' || c = '\r' || c = '\x0b' || c = '\x0c'

/-- Decimal digit test. -/
def isDigitChar (c : Char) : Bool := '0' ≤ c && c ≤ '9'

/-- Numeric value of a decimal digit character. -/
def digitVal (c : Char) : ℕ := c.toNat - '0'.toNat

/-- Value of a run of decimal digits, most significant first. -/
def natOfDigits (ds : List Char) : ℕ := ds.foldl (fun a c => 10 * a + digitVal c) 0

/-- Consume one optional sign character, returning the sign factor and
the remaining characters. -/
def readSign : List Char → ℤ × List Char
  | '+' :: rest => (1, rest)
  | '-' :: rest => (-1, rest)
  | s => (1, s)

/-- Model of `std::stoi` (base 10): skip leading whitespace, an optional
sign, then a nonempty run of decimal digits; any trailing characters are
ignored.  Fails (`none`) when no digit is found (`invalid_argument`) or
when the value does not fit in `int` (`out_of_range`). -/
def stoi (s : String) : Option ℤ :=
  let s1 := s.data.dropWhile isSpaceChar
  let sg := (readSign s1).1
  let s2 := (readSign s1).2
  let ds := s2.takeWhile isDigitChar
  if ds.isEmpty then none
  else
    let v : ℤ := sg * (natOfDigits ds : ℤ)
    if v < -(2 ^ 31) ∨ 2 ^ 31 - 1 < v then none else some v

/-- Model of `std::stod` restricted to decimal literals: skip leading
whitespace, an optional sign, mantissa digits with an optional
fractional part, and an optional exponent (consumed only when digits
follow the `e`/`E`); any trailing characters are ignored.  Fails
(`none`) when no mantissa digit is found.  The hexadecimal, infinity and
NaN forms also accepted by `strtod` are not modelled, and in the
exact-rational idealization no overflow, underflow or rounding occurs. -/
def stod (s : String) : Option ℚ :=
  let s1 := s.data.dropWhile isSpaceChar
  let sg := (readSign s1).1
  let s2 := (readSign s1).2
  let ip := s2.takeWhile isDigitChar
  let r1 := s2.dropWhile isDigitChar
  let fp := match r1 with
    | '.' :: rest => rest.takeWhile isDigitChar
    | _ => []
  let r2 := match r1 with
    | '.' :: rest => rest.dropWhile isDigitChar
    | _ => r1
  if ip.isEmpty && fp.isEmpty then none
  else
    let mant : ℚ := (sg : ℚ) * ((natOfDigits ip : ℚ) + (natOfDigits fp : ℚ) / 10 ^ fp.length)
    let e : ℤ := match r2 with
      | c :: rest =>
        if c = 'e' ∨ c = 'E' then
          let esg := (readSign rest).1
          let eds := (readSign rest).2.takeWhile isDigitChar
          if eds.isEmpty then 0 else esg * (natOfDigits eds : ℤ)
        else 0
      | [] => 0
    some (mant * 10 ^ e)

/-- One `irm::trec_result` record.  In C++ `rank` and `score` are
indeterminate until assigned by `parse_field`; the `0` placeholders
below are never observable, because a record is only returned once all
six fields have been assigned (the too-few-fields guard). -/
structure trec_result where
  query_id : String
  iteration : String
  document_id : String
  rank : ℤ
  score : ℚ
  run_id : String
  relevance : ℤ
deriving DecidableEq

/-- One `irm::trec_rel` judgment record. -/
structure trec_rel where
  query_id : String
  iteration : String
  document_id : String
  relevance : ℤ
deriving DecidableEq

/-- `trec_result::parse_field`: positional assignment of a token to a
field, `stoi` for `rank`, `stod` for `score`, `trec_format_error` on a
seventh token. -/
def trec_result.parse_field (rec : trec_result) (field : String) (field_num : ℕ) :
    Except String trec_result :=
  match field_num with
  | 0 => .ok { rec with query_id := field }
  | 1 => .ok { rec with iteration := field }
  | 2 => .ok { rec with document_id := field }
  | 3 =>
    match stoi field with
    | some v => .ok { rec with rank := v }
    | none => .error "cannot parse rank"
  | 4 =>
    match stod field with
    | some v => .ok { rec with score := v }
    | none => .error "cannot parse score"
  | 5 => .ok { rec with run_id := field }
  | _ => .error "too many fields"

/-- The token loop of `trec_result::from`: feed each token to
`parse_field` with the running `fields_read` counter. -/
def trec_result.fromAux (rec : trec_result) (fields_read : ℕ) :
    List String → Except String (trec_result × ℕ)
  | [] => .ok (rec, fields_read)
  | f :: fs =>
    match trec_result.parse_field rec f fields_read with
    | .ok rec2 => trec_result.fromAux rec2 (fields_read + 1) fs
    | .error e => .error e

/-- `trec_result::from`: parse all tokens of the line, then fail with
`"too few fields"` when fewer than six were read. -/
def trec_result.fromTokens (tokens : List String) : Except String trec_result :=
  match trec_result.fromAux
      { query_id := "", iteration := "", document_id := "", rank := 0, score := 0,
        run_id := "", relevance := 0 } 0 tokens with
  | .ok (rec, n) => if n < 6 then .error "too few fields" else .ok rec
  | .error e => .error e

/-- `trec_rel::parse_field`: positional assignment, `stoi` for
`relevance`, `trec_format_error` on a fifth token. -/
def trec_rel.parse_field (rec : trec_rel) (field : String) (field_num : ℕ) :
    Except String trec_rel :=
  match field_num with
  | 0 => .ok { rec with query_id := field }
  | 1 => .ok { rec with iteration := field }
  | 2 => .ok { rec with document_id := field }
  | 3 =>
    match stoi field with
    | some v => .ok { rec with relevance := v }
    | none => .error "cannot parse relevance"
  | _ => .error "too many fields"

/-- The token loop of `trec_rel::from`. -/
def trec_rel.fromAux (rec : trec_rel) (fields_read : ℕ) :
    List String → Except String (trec_rel × ℕ)
  | [] => .ok (rec, fields_read)
  | f :: fs =>
    match trec_rel.parse_field rec f fields_read with
    | .ok rec2 => trec_rel.fromAux rec2 (fields_read + 1) fs
    | .error e => .error e

/-- `trec_rel::from`: parse all tokens, then fail with
`"too few fields"` when fewer than four were read. -/
def trec_rel.fromTokens (tokens : List String) : Except String trec_rel :=
  match trec_rel.fromAux
      { query_id := "", iteration := "", document_id := "", relevance := 0 } 0 tokens with
  | .ok (rec, n) => if n < 4 then .error "too few fields" else .ok rec
  | .error e => .error e

/-- The `getline` loop shared by `read_trec_rels` and
`read_trec_results`: parse each line in turn, `push_back` the record,
and let a thrown `trec_format_error` abort the whole loop (modelled by
returning the error immediately, discarding the partial accumulator). -/
def readLoop {α : Type} (p : List String → Except String α) :
    List (List String) → List α → Except String (List α)
  | [], acc => .ok acc
  | l :: ls, acc =>
    match p l with
    | .ok r => readLoop p ls (acc ++ [r])
    | .error e => .error e

/-- `irm::read_trec_rels`: run the loop with `trec_rel::from` on every
line of the file (a file is represented by the token lists of its lines,
an empty line being `[]`). -/
def read_trec_rels (ls : List (List String)) : Except String (List trec_rel) :=
  readLoop trec_rel.fromTokens ls []

/-- `irm::read_trec_results`: run the loop with `trec_result::from`. -/
def read_trec_results (ls : List (List String)) : Except String (List trec_result) :=
  readLoop trec_result.fromTokens ls []

/-- Specification-side predicate: no field-level parse error occurs on a
result line, i.e. the rank token (position 3), when present, parses as
an integer and the score token (position 4), when present, parses as a
real. -/
def resultFieldsOk (ts : List String) : Bool :=
  (match ts[3]? with | some t => (stoi t).isSome | none => true)
  && (match ts[4]? with | some t => (stod t).isSome | none => true)

/-- Specification-side predicate: no field-level parse error occurs on a
judgment line (the relevance token at position 3 parses, when present). -/
def relFieldsOk (ts : List String) : Bool :=
  match ts[3]? with | some t => (stoi t).isSome | none => true

/-! ## Grouping and annotation (`irm/trec.hpp`) -/

/-- Association list modelling a map from `std::string` keys. -/
abbrev smap (α : Type) := List (String × α)

/-- Map lookup (`find`): the first entry with the given key. -/
def mlook {α : Type} (k : String) : smap α → Option α
  | [] => none
  | (k2, v) :: rest => if k = k2 then some v else mlook k rest

/-- `std::map::operator[]` followed by a mutation of the mapped value:
in a sorted association list, insert `(k, f d)` at the sorted position
when `k` is absent (`d` is the value-initialized default) and rewrite
the mapped value by `f` when `k` is present. -/
def mapUpd {α : Type} (k : String) (d : α) (f : α → α) : smap α → smap α
  | [] => [(k, f d)]
  | (k2, v) :: rest =>
    if k.data < k2.data then (k, f d) :: (k2, v) :: rest
    else if k = k2 then (k2, f v) :: rest
    else (k2, v) :: mapUpd k d f rest

/-- `std::unordered_map::operator[]` followed by a mutation: update the
entry in place when present, append a new entry otherwise (physical
bucket order is irrelevant because the model is only ever queried
through `mlook`). -/
def updAssoc {α : Type} (k : String) (d : α) (f : α → α) : smap α → smap α
  | [] => [(k, f d)]
  | (k2, v) :: rest =>
    if k2 = k then (k2, f v) :: rest else (k2, v) :: updAssoc k d f rest

/-- Keys appear in strictly increasing lexicographic order (the
iteration order of `std::map<std::string, T>`). -/
def msorted {α : Type} (m : smap α) : Prop := m.Pairwise (fun p q => p.1 < q.1)

/-- The loop body of `irm::group`:
`map[r.run_id][r.iteration][r.query_id].push_back(r)`. -/
def trecGroupStep (m : smap (smap (smap (List trec_result)))) (r : trec_result) :
    smap (smap (smap (List trec_result))) :=
  mapUpd r.run_id [] (fun m2 =>
    mapUpd r.iteration [] (fun m3 =>
      mapUpd r.query_id [] (fun l => l ++ [r]) m3) m2) m

/-- `irm::group`: fold the records in input order into the three-level
sorted mapping `run_id → iteration → query_id → record list`. -/
def group (records : List trec_result) : smap (smap (smap (List trec_result))) :=
  records.foldl trecGroupStep []

/-- Lookup through all three levels of the grouping structure (a key
missing at an outer level yields the empty inner map, so the final
lookup misses). -/
def mlook3 (m : smap (smap (smap (List trec_result)))) (a b c : String) :
    Option (List trec_result) :=
  mlook c ((mlook b ((mlook a m).getD [])).getD [])

/-- All three levels of the grouping structure are sorted. -/
def msorted3 (m : smap (smap (smap (List trec_result)))) : Prop :=
  msorted m ∧ ∀ p ∈ m, msorted p.2 ∧ ∀ q ∈ p.2, msorted q.2

/-- Combination of an optional existing group with newly appended
records, describing the effect of folding more records into a map. -/
def appendOpt {α : Type} : Option (List α) → List α → Option (List α)
  | none, [] => none
  | none, l => some l
  | some l0, l => some (l0 ++ l)

/-- `irm::group_by_query`: fold the judgment records in input order into
an unordered mapping `query_id → record list`. -/
def group_by_query (rels : List trec_rel) : smap (List trec_rel) :=
  rels.foldl (fun m rel => updAssoc rel.query_id [] (fun l => l ++ [rel]) m) []

/-- The relevance map built by `annotate_single`:
`relmap[rel.document_id] = rel.relevance` over the judgments in order
(a later judgment for the same document overwrites an earlier one). -/
def buildRelmap (rels : List trec_rel) : smap ℤ :=
  rels.foldl (fun m rel => updAssoc rel.document_id 0 (fun _ => rel.relevance) m) []

/-- `irm::annotate_single`: set each result's `relevance` to
`relmap[result.document_id]`, where a document id absent from the map
yields the value-initialized default `0`. -/
def annotate_single (results : List trec_result) (rels : List trec_rel) :
    List trec_result :=
  results.map (fun r =>
    { r with relevance := (mlook r.document_id (buildRelmap rels)).getD 0 })

/-- `irm::annotate`: group the results, group the judgments by query,
then annotate every per-query result list with that query's judgments
(`grouped_rels[query]` default-constructs an empty list for a query
without judgments). -/
def annotate (results : List trec_result) (rels : List trec_rel) :
    smap (smap (smap (List trec_result))) :=
  let gr := group_by_query rels
  (group results).map (fun rp =>
    (rp.1, rp.2.map (fun ip =>
      (ip.1, ip.2.map (fun qp =>
        (qp.1, annotate_single qp.2 ((mlook qp.1 gr).getD [])))))))

/-- The non-`relevance` fields of a result record, for frame claims. -/
def coreFields (r : trec_result) : String × String × String × ℤ × ℚ × String :=
  (r.query_id, r.iteration, r.document_id, r.rank, r.score, r.run_id)

/-! ## Lemmas about the weighted inner product -/

/-- The accumulating inner product equals the indexed finite sum. -/
theorem innerProd_eq_sum (w : WeightRange) (t : ℤ → ℚ) :
    ∀ (c : ℕ) (rel : List ℤ) (i : ℕ) (acc : ℚ), c ≤ rel.length →
      innerProd w t i rel c acc =
        acc + ∑ j ∈ Finset.range c, w.wAt (i + j) * t (rel.getD j 0) := by
  intro c
  induction c with
  | zero =>
    intro rel i acc _
    simp [innerProd]
  | succ c ih =>
    intro rel i acc h
    cases rel with
    | nil => simp at h
    | cons r rs =>
      rw [innerProd, ih rs (i + 1) (acc + w.wAt i * t r) (by simpa using h),
        Finset.sum_range_succ']
      have harr : ∀ j : ℕ, i + 1 + j = i + (j + 1) := by omega
      simp only [harr, List.getD_cons_succ, List.getD_cons_zero, Nat.add_zero]
      ring

/-- An element of a replicated weight vector, read within bounds. -/
theorem getD_replicate_lt {n i : ℕ} (a : ℚ) (h : i < n) :
    (List.replicate n a).getD i 0 = a := by
  rw [List.getD_eq_getElem?_getD, List.getElem?_replicate]
  simp [h]

/-- Summing the binary indicator over the first `m` positions counts the
positive entries among the first `m` elements. -/
theorem sum_binaryIndicator_eq_countP (l : List ℤ) :
    ∀ m, m ≤ l.length →
      ∑ j ∈ Finset.range m, binaryIndicator (l.getD j 0)
        = ((l.take m).countP (fun r => decide (0 < r)) : ℚ) := by
  intro m
  induction m with
  | zero => simp
  | succ m ih =>
    intro h
    have hm : m < l.length := by omega
    have htake : List.take (m + 1) l = List.take m l ++ [l[m]] := by
      rw [← List.concat_eq_append]
      exact (List.take_concat_get l m hm).symm
    have hgd : l.getD m 0 = l[m] := by
      rw [List.getD_eq_getElem?_getD, List.getElem?_eq_getElem hm]
      rfl
    rw [Finset.sum_range_succ, ih (by omega), htake, List.countP_append, hgd, binaryIndicator]
    by_cases hp : 0 < l[m]
    · simp [hp, List.countP_cons]
    · simp [hp, List.countP_cons]

/-! ## Claim theorems: metrics -/

/-- Claim C2: for every weighted-precision metric and relevance
sequence, evaluation computes the sum of `weight(i) * transform(rel[i])`
for `i` below `effective_cutoff = min(cutoff, n, weight-range size)`;
for `n = 0` or `effective_cutoff = 0` the result is `0`, and evaluation
is total. -/
theorem weighted_precision_eval_spec (wp : weighted_precision) (rel : List ℤ) :
    (wp.eval rel =
      ∑ j ∈ Finset.range (min (min wp.cutoff (rel.length : ℤ)) wp.weights.size).toNat,
        wp.weights.wAt j * wp.transform (rel.getD j 0))
    ∧ (rel = [] → wp.eval rel = 0)
    ∧ ((min (min wp.cutoff (rel.length : ℤ)) wp.weights.size).toNat = 0 →
        wp.eval rel = 0) := by
  have hle : (min (min wp.cutoff (rel.length : ℤ)) wp.weights.size).toNat ≤ rel.length := by
    omega
  have hmain : wp.eval rel =
      ∑ j ∈ Finset.range (min (min wp.cutoff (rel.length : ℤ)) wp.weights.size).toNat,
        wp.weights.wAt j * wp.transform (rel.getD j 0) := by
    rw [weighted_precision.eval,
      innerProd_eq_sum wp.weights wp.transform _ rel 0 0 hle]
    simp
  refine ⟨hmain, ?_, ?_⟩
  · intro hnil
    subst hnil
    rw [hmain]
    have h0 : (min (min wp.cutoff ((List.length ([] : List ℤ)) : ℤ)) wp.weights.size).toNat = 0 := by
      simp only [List.length_nil]
      omega
    rw [h0]
    simp
  · intro h0
    rw [hmain, h0]
    simp

/-- Witness for C2 at the empty relevance sequence. -/
theorem weighted_precision_eval_spec_witness : (precision_at 2).eval [] = 0 :=
  (weighted_precision_eval_spec (precision_at 2) []).2.1 rfl

/-- Claim C10: `precision_at(0)` is total and returns `0` on every
relevance sequence — the weight vector is empty, the effective cutoff is
`0`, and the `1.0/k` weight never contributes. -/
theorem precision_at_zero_spec (rel : List ℤ) : (precision_at 0).eval rel = 0 := by
  rw [precision_at, weighted_precision.eval]
  have h0 : (min (min (0 : ℤ) (rel.length : ℤ))
      (WeightRange.fin (List.replicate (0 : ℤ).toNat (1 / ((0 : ℤ) : ℚ)))).size).toNat = 0 := by
    simp only [WeightRange.size, Int.toNat_zero, List.replicate, List.length_nil]
    omega
  rw [h0]
  simp [innerProd]

/-- Claim C1: for `k ≥ 1`, `precision_at(k)` returns the number of
positive-relevance entries among the first `min(k, n)` elements divided
by `k` (always by `k`, not by the effective cutoff); in particular the
three concrete values on `[1,1,1,0,0,1,0]`. -/
theorem precision_at_spec :
    (∀ k : ℤ, 1 ≤ k → ∀ rel : List ℤ,
        (precision_at k).eval rel =
          ((rel.take (min k (rel.length : ℤ)).toNat).countP (fun r => decide (0 < r)) : ℚ)
            / (k : ℚ))
    ∧ (precision_at 4).eval [1, 1, 1, 0, 0, 1, 0] = 3 / 4
    ∧ (precision_at 7).eval [1, 1, 1, 0, 0, 1, 0] = 4 / 7
    ∧ (precision_at 8).eval [1, 1, 1, 0, 0, 1, 0] = 1 / 2 := by
  have hG : ∀ k : ℤ, 1 ≤ k → ∀ rel : List ℤ,
      (precision_at k).eval rel =
        ((rel.take (min k (rel.length : ℤ)).toNat).countP (fun r => decide (0 < r)) : ℚ)
          / (k : ℚ) := by
    intro k hk rel
    simp only [precision_at, weighted_precision.eval, WeightRange.size, List.length_replicate]
    have hmin : (min (min k (rel.length : ℤ)) (k.toNat : ℤ)).toNat
        = (min k (rel.length : ℤ)).toNat := by
      omega
    rw [hmin]
    have hle : (min k (rel.length : ℤ)).toNat ≤ rel.length := by omega
    rw [innerProd_eq_sum _ _ _ rel 0 0 hle, zero_add]
    have hktn : (min k (rel.length : ℤ)).toNat ≤ k.toNat := by omega
    have hsum : ∀ j ∈ Finset.range (min k (rel.length : ℤ)).toNat,
        (WeightRange.fin (List.replicate k.toNat (1 / (k : ℚ)))).wAt (0 + j)
            * binaryIndicator (rel.getD j 0)
          = (1 / (k : ℚ)) * binaryIndicator (rel.getD j 0) := by
      intro j hj
      simp only [WeightRange.wAt, Nat.zero_add]
      rw [getD_replicate_lt _ (lt_of_lt_of_le (Finset.mem_range.mp hj) hktn)]
    rw [Finset.sum_congr rfl hsum, ← Finset.mul_sum, sum_binaryIndicator_eq_countP rel _ hle,
      one_div_mul_eq_div]
  refine ⟨hG, ?_, ?_, ?_⟩
  · rw [hG 4 (by norm_num) [1, 1, 1, 0, 0, 1, 0]]
    have h2 : (([1, 1, 1, 0, 0, 1, 0] : List ℤ).take
        (min (4 : ℤ) ((([1, 1, 1, 0, 0, 1, 0] : List ℤ).length : ℕ) : ℤ)).toNat).countP
          (fun r => decide (0 < r)) = 3 := by rfl
    rw [h2]
    norm_num
  · rw [hG 7 (by norm_num) [1, 1, 1, 0, 0, 1, 0]]
    have h2 : (([1, 1, 1, 0, 0, 1, 0] : List ℤ).take
        (min (7 : ℤ) ((([1, 1, 1, 0, 0, 1, 0] : List ℤ).length : ℕ) : ℤ)).toNat).countP
          (fun r => decide (0 < r)) = 4 := by rfl
    rw [h2]
    norm_num
  · rw [hG 8 (by norm_num) [1, 1, 1, 0, 0, 1, 0]]
    have h2 : (([1, 1, 1, 0, 0, 1, 0] : List ℤ).take
        (min (8 : ℤ) ((([1, 1, 1, 0, 0, 1, 0] : List ℤ).length : ℕ) : ℤ)).toNat).countP
          (fun r => decide (0 < r)) = 4 := by rfl
    rw [h2]
    norm_num

/-- Witness for C1 at `k = 4` on the concrete sequence. -/
theorem precision_at_spec_witness :
    (1 : ℤ) ≤ 4 ∧
      (precision_at 4).eval [1, 1, 1, 0, 0, 1, 0] =
        ((([1, 1, 1, 0, 0, 1, 0] : List ℤ).take
            (min (4 : ℤ) ((([1, 1, 1, 0, 0, 1, 0] : List ℤ).length : ℕ) : ℤ)).toNat).countP
          (fun r => decide (0 < r)) : ℚ) / ((4 : ℤ) : ℚ) :=
  ⟨by norm_num, precision_at_spec.1 4 (by norm_num) [1, 1, 1, 0, 0, 1, 0]⟩

/-- Claim C3: for persistence `p ∈ [0,1]`, `rank_biased_precision(p)`
terminates on every finite relevance sequence whose length fits in
`int`, returning the sum of `(1-p) * p^i` over the positions with
positive relevance; concretely the value at `p = 0.8` on
`[1,1,1,0,0,1,0]` is `0.553536` within `10⁻⁶`. -/
theorem rank_biased_precision_spec :
    (∀ p : ℚ, 0 ≤ p → p ≤ 1 → ∀ rel : List ℤ, (rel.length : ℤ) ≤ intMax →
        (rank_biased_precision p).eval rel =
          ∑ j ∈ Finset.range rel.length,
            if 0 < rel.getD j 0 then (1 - p) * p ^ j else 0)
    ∧ |(rank_biased_precision (4 / 5)).eval [1, 1, 1, 0, 0, 1, 0] - 553536 / 1000000|
        < 1 / 1000000 := by
  have hG : ∀ p : ℚ, 0 ≤ p → p ≤ 1 → ∀ rel : List ℤ, (rel.length : ℤ) ≤ intMax →
      (rank_biased_precision p).eval rel =
        ∑ j ∈ Finset.range rel.length,
          if 0 < rel.getD j 0 then (1 - p) * p ^ j else 0 := by
    intro p _ _ rel hn
    simp only [rank_biased_precision, weighted_precision.eval, WeightRange.size]
    have hcut : (min (min intMax (rel.length : ℤ)) ptrdiffMax).toNat = rel.length := by
      have h1 : intMax = 2147483647 := by decide
      have h2 : ptrdiffMax = 9223372036854775807 := by decide
      rw [h1] at hn
      rw [h1, h2]
      omega
    rw [hcut, innerProd_eq_sum _ _ _ rel 0 0 (le_refl _), zero_add]
    refine Finset.sum_congr rfl (fun j _ => ?_)
    simp only [WeightRange.wAt, Nat.zero_add, binaryIndicator]
    by_cases hp : 0 < rel.getD j 0
    · simp [hp]
    · simp [hp]
  constructor
  · exact hG
  · have hv : (rank_biased_precision (4 / 5)).eval [1, 1, 1, 0, 0, 1, 0]
        = 553536 / 1000000 := by
      rw [hG (4 / 5) (by norm_num) (by norm_num) [1, 1, 1, 0, 0, 1, 0] (by decide)]
      norm_num [Finset.sum_range_succ]
    rw [hv]
    norm_num

/-- Witness for C3 at `p = 4/5` on the concrete sequence. -/
theorem rank_biased_precision_spec_witness :
    (0 : ℚ) ≤ 4 / 5 ∧ (4 : ℚ) / 5 ≤ 1
      ∧ ((([1, 1, 1, 0, 0, 1, 0] : List ℤ).length : ℕ) : ℤ) ≤ intMax
      ∧ (rank_biased_precision (4 / 5)).eval [1, 1, 1, 0, 0, 1, 0] =
          ∑ j ∈ Finset.range ([1, 1, 1, 0, 0, 1, 0] : List ℤ).length,
            if 0 < ([1, 1, 1, 0, 0, 1, 0] : List ℤ).getD j 0
            then (1 - 4 / 5 : ℚ) * (4 / 5 : ℚ) ^ j else 0 :=
  ⟨by norm_num, by norm_num, by decide,
    rank_biased_precision_spec.1 (4 / 5) (by norm_num) (by norm_num)
      [1, 1, 1, 0, 0, 1, 0] (by decide)⟩

/-! ## Lemmas about file reading -/

/-- Success characterization of the read loop: it succeeds exactly when
every line parses, returning the accumulator followed by the parsed
records in line order. -/
theorem readLoop_ok_iff {α : Type} (p : List String → Except String α) :
    ∀ (ls : List (List String)) (acc rs : List α),
      readLoop p ls acc = .ok rs ↔
        ∃ rs2, rs = acc ++ rs2 ∧ List.Forall₂ (fun l r => p l = .ok r) ls rs2 := by
  intro ls
  induction ls with
  | nil =>
    intro acc rs
    constructor
    · intro h
      injection h with h
      exact ⟨[], by simp [h], List.Forall₂.nil⟩
    · rintro ⟨rs2, hrs, hf⟩
      cases hf
      simp [readLoop, hrs]
  | cons l ls ih =>
    intro acc rs
    cases hp : p l with
    | error e =>
      simp only [readLoop, hp]
      constructor
      · intro h
        exact absurd h (by simp)
      · rintro ⟨rs2, hrs, hf⟩
        rcases List.forall₂_cons_left_iff.mp hf with ⟨b, l2, hpl, hf2, hcons⟩
        rw [hp] at hpl
        exact absurd hpl (by simp)
    | ok r =>
      simp only [readLoop, hp]
      rw [ih (acc ++ [r]) rs]
      constructor
      · rintro ⟨rs2, hrs, hf⟩
        exact ⟨r :: rs2, by simp [hrs], List.Forall₂.cons hp hf⟩
      · rintro ⟨rs2, hrs, hf⟩
        rcases List.forall₂_cons_left_iff.mp hf with ⟨b, l2, hpl, hf2, hcons⟩
        rw [hp] at hpl
        injection hpl with hb
        subst hb
        subst hcons
        exact ⟨l2, by simp [hrs], hf2⟩

/-- Failure characterization of the read loop: an error is the error of
some line of the file. -/
theorem readLoop_error_mem {α : Type} (p : List String → Except String α) :
    ∀ (ls : List (List String)) (acc : List α) (e : String),
      readLoop p ls acc = .error e → ∃ l ∈ ls, p l = .error e := by
  intro ls
  induction ls with
  | nil =>
    intro acc e h
    exact absurd h (by simp [readLoop])
  | cons l ls ih =>
    intro acc e h
    cases hp : p l with
    | error e2 =>
      rw [readLoop, hp] at h
      injection h with h
      exact ⟨l, by simp, by rw [hp, h]⟩
    | ok r =>
      rw [readLoop, hp] at h
      rcases ih (acc ++ [r]) e h with ⟨l2, hmem, hl2⟩
      exact ⟨l2, by simp [hmem], hl2⟩

/-- Concrete evaluation of the score parser on the token `"4238"`
(rational arithmetic is normalized with `norm_num`, since `ℚ`
operations do not reduce definitionally). -/
theorem stod_4238 : stod "4238" = some 4238 := by
  have h1 : stod "4238"
      = some (((1 : ℤ) : ℚ) * (((4238 : ℕ) : ℚ) + ((0 : ℕ) : ℚ) / 10 ^ (0 : ℕ))
          * 10 ^ (0 : ℤ)) := rfl
  rw [h1]
  norm_num

/-! ## Claim theorems: parsing and file reading -/

/-- Claim C7 counterexample: the rank token `"12.5"` is not a valid
integer, yet `trec_result::from` succeeds, storing the prefix value `12`
(`std::stoi` ignores trailing characters), instead of raising
`"cannot parse rank"` as the claim requires. -/
theorem trec_numeric_field_counterexample :
    trec_result.fromTokens ["030", "Q0", "ZF08-175-870", "12.5", "4238", "R0"] =
      .ok ⟨"030", "Q0", "ZF08-175-870", 12, 4238, "R0", 0⟩ := by
  have h1 : stoi "12.5" = some 12 := by rfl
  simp [trec_result.fromTokens, trec_result.fromAux, trec_result.parse_field, h1, stod_4238]

/-- Claim C7 (amended): the integer fields (rank, relevance) raise
`"cannot parse <field>"` exactly when `stoi` fails on the token (no
signed-decimal-digit prefix, or value out of `int` range), and the score
field raises exactly when `stod` fails; when the numeric parser
succeeds, exactly its value is stored — so a token that is in full a
valid integer/real stores exactly that numeric value, while trailing
garbage after a valid prefix is silently ignored. -/
theorem trec_numeric_field_spec (q i d rk sc run rv : String) :
    (∀ v w, stoi rk = some v → stod sc = some w →
        trec_result.fromTokens [q, i, d, rk, sc, run] = .ok ⟨q, i, d, v, w, run, 0⟩)
    ∧ (stoi rk = none →
        trec_result.fromTokens [q, i, d, rk, sc, run] = .error "cannot parse rank")
    ∧ (∀ v, stoi rk = some v → stod sc = none →
        trec_result.fromTokens [q, i, d, rk, sc, run] = .error "cannot parse score")
    ∧ (∀ v, stoi rv = some v → trec_rel.fromTokens [q, i, d, rv] = .ok ⟨q, i, d, v⟩)
    ∧ (stoi rv = none →
        trec_rel.fromTokens [q, i, d, rv] = .error "cannot parse relevance") := by
  refine ⟨?_, ?_, ?_, ?_, ?_⟩
  · intro v w hv hw
    simp [trec_result.fromTokens, trec_result.fromAux, trec_result.parse_field, hv, hw]
  · intro hv
    simp [trec_result.fromTokens, trec_result.fromAux, trec_result.parse_field, hv]
  · intro v hv hw
    simp [trec_result.fromTokens, trec_result.fromAux, trec_result.parse_field, hv, hw]
  · intro v hv
    simp [trec_rel.fromTokens, trec_rel.fromAux, trec_rel.parse_field, hv]
  · intro hv
    simp [trec_rel.fromTokens, trec_rel.fromAux, trec_rel.parse_field, hv]

/-- Witness for C7 (amended) on a fully valid result line. -/
theorem trec_numeric_field_spec_witness :
    stoi "0" = some 0 ∧ stod "4238" = some 4238 ∧
      trec_result.fromTokens ["030", "Q0", "ZF08-175-870", "0", "4238", "R0"] =
        .ok ⟨"030", "Q0", "ZF08-175-870", 0, 4238, "R0", 0⟩ :=
  ⟨by rfl, stod_4238,
    (trec_numeric_field_spec "030" "Q0" "ZF08-175-870" "0" "4238" "R0" "0").1 0 4238
      (by rfl) stod_4238⟩

/-- Claim C9 counterexample: an empty line does not produce "no record
and no error" — `trec_rel::from` is invoked on it and throws
`"too few fields"`, so a file of one valid judgment line followed by an
empty line fails instead of returning the single record. -/
theorem read_trec_empty_line_counterexample :
    read_trec_rels [["q0", "i0", "ZF08-175-870", "2"], []] = .error "too few fields" := by
  rfl

/-- Claim C9 (amended): every line of the file, empty lines included, is
parsed (an empty line fails with `"too few fields"`); the read succeeds
with exactly the per-line records in order iff every line parses, and
any line failure aborts the whole read with that line's error, returning
no partial result list. -/
theorem read_trec_fatal_spec (ls : List (List String)) :
    (∀ rs, read_trec_rels ls = .ok rs ↔
        List.Forall₂ (fun l r => trec_rel.fromTokens l = .ok r) ls rs)
    ∧ (∀ e, read_trec_rels ls = .error e →
        ∃ l ∈ ls, trec_rel.fromTokens l = .error e)
    ∧ (∀ rs, read_trec_results ls = .ok rs ↔
        List.Forall₂ (fun l r => trec_result.fromTokens l = .ok r) ls rs)
    ∧ (∀ e, read_trec_results ls = .error e →
        ∃ l ∈ ls, trec_result.fromTokens l = .error e)
    ∧ trec_rel.fromTokens [] = .error "too few fields"
    ∧ trec_result.fromTokens [] = .error "too few fields" := by
  refine ⟨?_, ?_, ?_, ?_, by rfl, by rfl⟩
  · intro rs
    rw [read_trec_rels, readLoop_ok_iff]
    simp
  · intro e h
    exact readLoop_error_mem trec_rel.fromTokens ls [] e h
  · intro rs
    rw [read_trec_results, readLoop_ok_iff]
    simp
  · intro e h
    exact readLoop_error_mem trec_result.fromTokens ls [] e h

/-- Witness for C9 (amended): a failing second line aborts the read and
the error is that line's error. -/
theorem read_trec_fatal_spec_witness :
    read_trec_rels [["q0", "i0", "d0", "2"], ["q1", "i0", "d1", "bad"]] =
        .error "cannot parse relevance" ∧
      ∃ l ∈ [["q0", "i0", "d0", "2"], ["q1", "i0", "d1", "bad"]],
        trec_rel.fromTokens l = .error "cannot parse relevance" :=
  ⟨by rfl,
    (read_trec_fatal_spec [["q0", "i0", "d0", "2"], ["q1", "i0", "d1", "bad"]]).2.1
      "cannot parse relevance" (by rfl)⟩

/-- Claim C6: `"too many fields"` is raised exactly when a seventh
(result) or fifth (judgment) token is present and no field-level error
occurred at the numeric positions before it; `"too few fields"` exactly
when fewer than 6 (result) / 4 (judgment) tokens are present and no
field-level error occurred; and when a line has both a malformed numeric
field and a wrong token count, the field-level error is the one
reported, because the length check runs only after the whole line is
consumed. -/
theorem trec_field_count_spec (ts : List String) :
    (trec_result.fromTokens ts = .error "too many fields"
        ↔ 6 < ts.length ∧ resultFieldsOk ts = true)
    ∧ (trec_result.fromTokens ts = .error "too few fields"
        ↔ ts.length < 6 ∧ resultFieldsOk ts = true)
    ∧ ((trec_result.fromTokens ts = .error "cannot parse rank"
          ∨ trec_result.fromTokens ts = .error "cannot parse score")
        ↔ resultFieldsOk ts = false)
    ∧ (trec_rel.fromTokens ts = .error "too many fields"
        ↔ 4 < ts.length ∧ relFieldsOk ts = true)
    ∧ (trec_rel.fromTokens ts = .error "too few fields"
        ↔ ts.length < 4 ∧ relFieldsOk ts = true)
    ∧ (trec_rel.fromTokens ts = .error "cannot parse relevance"
        ↔ relFieldsOk ts = false) := by
  rcases ts with _ | ⟨a, _ | ⟨b, _ | ⟨c, _ | ⟨d, _ | ⟨e, _ | ⟨f, _ | ⟨g, rest⟩⟩⟩⟩⟩⟩⟩
  · simp [trec_result.fromTokens, trec_result.fromAux, trec_result.parse_field,
      trec_rel.fromTokens, trec_rel.fromAux, trec_rel.parse_field,
      resultFieldsOk, relFieldsOk]
  · simp [trec_result.fromTokens, trec_result.fromAux, trec_result.parse_field,
      trec_rel.fromTokens, trec_rel.fromAux, trec_rel.parse_field,
      resultFieldsOk, relFieldsOk]
  · simp [trec_result.fromTokens, trec_result.fromAux, trec_result.parse_field,
      trec_rel.fromTokens, trec_rel.fromAux, trec_rel.parse_field,
      resultFieldsOk, relFieldsOk]
  · simp [trec_result.fromTokens, trec_result.fromAux, trec_result.parse_field,
      trec_rel.fromTokens, trec_rel.fromAux, trec_rel.parse_field,
      resultFieldsOk, relFieldsOk]
  · rcases hd : stoi d with _ | v
    · simp [trec_result.fromTokens, trec_result.fromAux, trec_result.parse_field,
        trec_rel.fromTokens, trec_rel.fromAux, trec_rel.parse_field,
        resultFieldsOk, relFieldsOk, hd]
    · simp [trec_result.fromTokens, trec_result.fromAux, trec_result.parse_field,
        trec_rel.fromTokens, trec_rel.fromAux, trec_rel.parse_field,
        resultFieldsOk, relFieldsOk, hd]
  · rcases hd : stoi d with _ | v
    · simp [trec_result.fromTokens, trec_result.fromAux, trec_result.parse_field,
        trec_rel.fromTokens, trec_rel.fromAux, trec_rel.parse_field,
        resultFieldsOk, relFieldsOk, hd]
    · rcases he : stod e with _ | w
      · simp [trec_result.fromTokens, trec_result.fromAux, trec_result.parse_field,
          trec_rel.fromTokens, trec_rel.fromAux, trec_rel.parse_field,
          resultFieldsOk, relFieldsOk, hd, he]
      · simp [trec_result.fromTokens, trec_result.fromAux, trec_result.parse_field,
          trec_rel.fromTokens, trec_rel.fromAux, trec_rel.parse_field,
          resultFieldsOk, relFieldsOk, hd, he]
  · rcases hd : stoi d with _ | v
    · simp [trec_result.fromTokens, trec_result.fromAux, trec_result.parse_field,
        trec_rel.fromTokens, trec_rel.fromAux, trec_rel.parse_field,
        resultFieldsOk, relFieldsOk, hd]
    · rcases he : stod e with _ | w
      · simp [trec_result.fromTokens, trec_result.fromAux, trec_result.parse_field,
          trec_rel.fromTokens, trec_rel.fromAux, trec_rel.parse_field,
          resultFieldsOk, relFieldsOk, hd, he]
      · simp [trec_result.fromTokens, trec_result.fromAux, trec_result.parse_field,
          trec_rel.fromTokens, trec_rel.fromAux, trec_rel.parse_field,
          resultFieldsOk, relFieldsOk, hd, he]
  · rcases hd : stoi d with _ | v
    · simp [trec_result.fromTokens, trec_result.fromAux, trec_result.parse_field,
        trec_rel.fromTokens, trec_rel.fromAux, trec_rel.parse_field,
        resultFieldsOk, relFieldsOk, hd]
    · rcases he : stod e with _ | w
      · simp [trec_result.fromTokens, trec_result.fromAux, trec_result.parse_field,
          trec_rel.fromTokens, trec_rel.fromAux, trec_rel.parse_field,
          resultFieldsOk, relFieldsOk, hd, he]
      · simp [trec_result.fromTokens, trec_result.fromAux, trec_result.parse_field,
          trec_rel.fromTokens, trec_rel.fromAux, trec_rel.parse_field,
          resultFieldsOk, relFieldsOk, hd, he]

/-! ## Lemmas about the map models -/

/-- Lookup misses when the key differs from every stored key. -/
theorem mlook_eq_none {α : Type} (k : String) :
    ∀ m : smap α, (∀ p ∈ m, k ≠ p.1) → mlook k m = none := by
  intro m
  induction m with
  | nil => intro _; rfl
  | cons p rest ih =>
    intro h
    obtain ⟨k2, v⟩ := p
    rw [mlook, if_neg (h (k2, v) (by simp))]
    exact ih (fun q hq => h q (by simp [hq]))

/-- A successful lookup exhibits a member of the list. -/
theorem mlook_mem {α : Type} (k : String) :
    ∀ (m : smap α) (v : α), mlook k m = some v → (k, v) ∈ m := by
  intro m
  induction m with
  | nil =>
    intro v h
    exact absurd h (by simp [mlook])
  | cons p rest ih =>
    intro v h
    obtain ⟨k2, w⟩ := p
    rw [mlook] at h
    by_cases hk : k = k2
    · rw [if_pos hk] at h
      injection h with h
      subst hk
      subst h
      simp
    · rw [if_neg hk] at h
      exact List.mem_cons_of_mem _ (ih v h)

/-- The core `String` order is, definitionally, the lexicographic order
of the underlying character lists (which `std::string::operator<` also
implements). -/
theorem string_data_lt_iff (a b : String) : a.data < b.data ↔ a < b :=
  (String.lt_iff_toList_lt).symm

/-- Members of an updated sorted map: either old members, or the updated
entry at the updated key. -/
theorem mem_mapUpd {α : Type} (k : String) (d : α) (f : α → α) :
    ∀ (m : smap α) (p : String × α), p ∈ mapUpd k d f m →
      p ∈ m ∨ ∃ v, p = (k, f v) ∧ (v = d ∨ (k, v) ∈ m) := by
  intro m
  induction m with
  | nil =>
    intro p hp
    simp [mapUpd] at hp
    exact Or.inr ⟨d, by simp [hp], Or.inl rfl⟩
  | cons q rest ih =>
    intro p hp
    obtain ⟨k2, v⟩ := q
    rw [mapUpd] at hp
    by_cases h1 : k.data < k2.data
    · rw [if_pos h1] at hp
      rcases List.mem_cons.mp hp with hp | hp
      · exact Or.inr ⟨d, hp, Or.inl rfl⟩
      · exact Or.inl hp
    · by_cases h2 : k = k2
      · rw [if_neg h1, if_pos h2] at hp
        rcases List.mem_cons.mp hp with hp | hp
        · subst h2
          exact Or.inr ⟨v, hp, Or.inr (by simp)⟩
        · exact Or.inl (List.mem_cons_of_mem _ hp)
      · rw [if_neg h1, if_neg h2] at hp
        rcases List.mem_cons.mp hp with hp | hp
        · exact Or.inl (by simp [hp])
        · rcases ih p hp with hp2 | ⟨v2, hpv, hv2⟩
          · exact Or.inl (List.mem_cons_of_mem _ hp2)
          · refine Or.inr ⟨v2, hpv, ?_⟩
            rcases hv2 with hv2 | hv2
            · exact Or.inl hv2
            · exact Or.inr (List.mem_cons_of_mem _ hv2)

/-- `mapUpd` preserves sortedness. -/
theorem msorted_mapUpd {α : Type} (k : String) (d : α) (f : α → α) :
    ∀ m : smap α, msorted m → msorted (mapUpd k d f m) := by
  intro m
  induction m with
  | nil =>
    intro _
    simp [mapUpd, msorted]
  | cons q rest ih =>
    intro hs
    obtain ⟨k2, v⟩ := q
    simp only [msorted, List.pairwise_cons] at hs
    obtain ⟨hall, hrest⟩ := hs
    rw [mapUpd]
    by_cases h1 : k.data < k2.data
    · rw [if_pos h1]
      simp only [msorted, List.pairwise_cons]
      refine ⟨?_, hall, hrest⟩
      intro p hp
      rcases List.mem_cons.mp hp with hp | hp
      · rw [hp]
        exact (string_data_lt_iff k k2).mp h1
      · exact lt_trans ((string_data_lt_iff k k2).mp h1) (hall p hp)
    · by_cases h2 : k = k2
      · rw [if_neg h1, if_pos h2]
        simp only [msorted, List.pairwise_cons]
        exact ⟨hall, hrest⟩
      · rw [if_neg h1, if_neg h2]
        have hk2k : k2 < k := by
          rcases lt_trichotomy k k2 with h | h | h
          · exact absurd ((string_data_lt_iff k k2).mpr h) h1
          · exact absurd h h2
          · exact h
        simp only [msorted, List.pairwise_cons]
        refine ⟨?_, ih hrest⟩
        intro p hp
        rcases mem_mapUpd k d f rest p hp with hp2 | ⟨v2, hpv, _⟩
        · exact hall p hp2
        · rw [hpv]
          exact hk2k

/-- Lookup after a sorted-map update (`std::map::operator[]` followed by
a mutation): the updated key maps to the mutated value, other keys are
untouched. -/
theorem mlook_mapUpd (k j : String) {α : Type} (d : α) (f : α → α) :
    ∀ m : smap α, msorted m →
      mlook j (mapUpd k d f m) =
        if j = k then some (f ((mlook k m).getD d)) else mlook j m := by
  intro m
  induction m with
  | nil =>
    intro _
    by_cases hj : j = k
    · simp [mapUpd, mlook, hj]
    · simp [mapUpd, mlook, hj]
  | cons q rest ih =>
    intro hs
    obtain ⟨k2, v⟩ := q
    simp only [msorted, List.pairwise_cons] at hs
    obtain ⟨hall, hrest⟩ := hs
    rw [mapUpd]
    by_cases h1 : k.data < k2.data
    · rw [if_pos h1]
      by_cases hj : j = k
      · subst hj
        have hS : j < k2 := (string_data_lt_iff j k2).mp h1
        have hne2 : j ≠ k2 := fun h => absurd (h ▸ hS) (lt_irrefl _)
        have hnone : mlook j ((k2, v) :: rest) = none := by
          apply mlook_eq_none
          intro p hp
          rcases List.mem_cons.mp hp with hp | hp
          · rw [hp]
            exact hne2
          · intro heq
            exact absurd (heq ▸ lt_trans hS (hall p hp)) (lt_irrefl _)
        rw [if_pos rfl, hnone, mlook, if_pos rfl]
        rfl
      · rw [if_neg hj, mlook, if_neg hj]
    · by_cases h2 : k = k2
      · subst h2
        rw [if_neg h1, if_pos rfl]
        by_cases hj : j = k
        · subst hj
          rw [if_pos rfl, mlook, if_pos rfl, mlook, if_pos rfl]
          rfl
        · rw [if_neg hj, mlook, if_neg hj, mlook, if_neg hj]
      · rw [if_neg h1, if_neg h2]
        have hk2k : k2 < k := by
          rcases lt_trichotomy k k2 with h | h | h
          · exact absurd ((string_data_lt_iff k k2).mpr h) h1
          · exact absurd h h2
          · exact h
        by_cases hj : j = k2
        · subst hj
          have hjk : j ≠ k := fun h => h2 h.symm
          rw [mlook, if_pos rfl, if_neg hjk, mlook, if_pos rfl]
        · rw [mlook, if_neg hj, ih hrest]
          by_cases hjk : j = k
          · rw [if_pos hjk, if_pos hjk, mlook, if_neg (hjk ▸ hj)]
          · rw [if_neg hjk, if_neg hjk, mlook, if_neg hj]

/-- Lookup after an unordered-map update (`std::unordered_map` model):
no sortedness needed, since the entry is updated in place or appended. -/
theorem mlook_updAssoc (k j : String) {α : Type} (d : α) (f : α → α) :
    ∀ m : smap α,
      mlook j (updAssoc k d f m) =
        if j = k then some (f ((mlook k m).getD d)) else mlook j m := by
  intro m
  induction m with
  | nil =>
    by_cases hj : j = k
    · simp [updAssoc, mlook, hj]
    · simp [updAssoc, mlook, hj]
  | cons q rest ih =>
    obtain ⟨k2, v⟩ := q
    rw [updAssoc]
    by_cases h1 : k2 = k
    · subst h1
      rw [if_pos rfl]
      by_cases hj : j = k2
      · subst hj
        rw [mlook, if_pos rfl, if_pos rfl, mlook, if_pos rfl]
        rfl
      · rw [mlook, if_neg hj, if_neg hj, mlook, if_neg hj]
    · rw [if_neg h1]
      by_cases hj : j = k2
      · subst hj
        have hjk : j ≠ k := fun h => h1 h
        rw [mlook, if_pos rfl, if_neg hjk, mlook, if_pos rfl]
      · rw [mlook, if_neg hj, ih]
        by_cases hjk : j = k
        · rw [if_pos hjk, if_pos hjk, mlook, if_neg (hjk ▸ hj)]
        · rw [if_neg hjk, if_neg hjk, mlook, if_neg hj]

/-- Lookup in a key-preserving structure map. -/
theorem mlook_map_structure {α β : Type} (f : String → α → β) (k : String) :
    ∀ m : smap α,
      mlook k (m.map (fun p => (p.1, f p.1 p.2))) = (mlook k m).map (f k) := by
  intro m
  induction m with
  | nil => rfl
  | cons p rest ih =>
    obtain ⟨k2, v⟩ := p
    by_cases hk : k = k2
    · subst hk
      simp [mlook, ih]
    · simp [mlook, hk, ih]

/-! ## Lemmas about grouping -/

/-- Effect of one grouping step on a three-level lookup: the record is
appended to its own `(run_id, iteration, query_id)` group, every other
group is unchanged. -/
theorem mlook3_trecGroupStep (m : smap (smap (smap (List trec_result)))) (r : trec_result)
    (hwf : msorted3 m) (a b c : String) :
    mlook3 (trecGroupStep m r) a b c =
      if a = r.run_id ∧ b = r.iteration ∧ c = r.query_id
      then some ((mlook3 m a b c).getD [] ++ [r])
      else mlook3 m a b c := by
  obtain ⟨hs1, hs2⟩ := hwf
  have hm2s : msorted ((mlook r.run_id m).getD []) := by
    rcases hmm : mlook r.run_id m with _ | v
    · simp [msorted]
    · simpa using (hs2 _ (mlook_mem _ m v hmm)).1
  have hm3s : msorted ((mlook r.iteration ((mlook r.run_id m).getD [])).getD []) := by
    rcases hmm : mlook r.run_id m with _ | v
    · simp [mlook, msorted]
    · rcases hmm2 : mlook r.iteration v with _ | w
      · simp [hmm, hmm2, msorted]
      · have h3 := (hs2 _ (mlook_mem _ m v hmm)).2 _ (mlook_mem _ v w hmm2)
        simpa [hmm, hmm2] using h3
  simp only [mlook3, trecGroupStep]
  rw [mlook_mapUpd r.run_id a [] _ m hs1]
  by_cases ha : a = r.run_id
  · rw [if_pos ha, ha, Option.getD_some]
    rw [mlook_mapUpd r.iteration b [] _ _ hm2s]
    by_cases hb : b = r.iteration
    · rw [if_pos hb, hb, Option.getD_some]
      rw [mlook_mapUpd r.query_id c [] _ _ hm3s]
      by_cases hc : c = r.query_id
      · rw [if_pos hc, hc]
        have hyes : r.run_id = r.run_id ∧ r.iteration = r.iteration ∧ r.query_id = r.query_id :=
          ⟨rfl, rfl, rfl⟩
        rw [if_pos hyes]
      · rw [if_neg hc]
        have hno : ¬(r.run_id = r.run_id ∧ r.iteration = r.iteration ∧ c = r.query_id) :=
          fun h => hc h.2.2
        rw [if_neg hno]
    · rw [if_neg hb]
      have hno : ¬(r.run_id = r.run_id ∧ b = r.iteration ∧ c = r.query_id) :=
        fun h => hb h.2.1
      rw [if_neg hno]
  · rw [if_neg ha]
    have hno : ¬(a = r.run_id ∧ b = r.iteration ∧ c = r.query_id) :=
      fun h => ha h.1
    rw [if_neg hno]

/-- One grouping step preserves the three-level sortedness. -/
theorem msorted3_trecGroupStep (m : smap (smap (smap (List trec_result)))) (r : trec_result)
    (hwf : msorted3 m) : msorted3 (trecGroupStep m r) := by
  obtain ⟨hs1, hs2⟩ := hwf
  constructor
  · exact msorted_mapUpd _ _ _ m hs1
  · intro p hp
    rcases mem_mapUpd _ _ _ m p hp with hp2 | ⟨v2, hpv, hv2⟩
    · exact hs2 p hp2
    · have hv2s : msorted v2 ∧ ∀ q ∈ v2, msorted q.2 := by
        rcases hv2 with h | h
        · subst h
          exact ⟨List.Pairwise.nil, by simp⟩
        · exact hs2 _ h
      rw [hpv]
      constructor
      · exact msorted_mapUpd _ _ _ v2 hv2s.1
      · intro q hq
        rcases mem_mapUpd _ _ _ v2 q hq with hq2 | ⟨v3, hqv, hv3⟩
        · exact hv2s.2 q hq2
        · have hv3s : msorted v3 := by
            rcases hv3 with h | h
            · subst h
              exact List.Pairwise.nil
            · exact hv2s.2 _ h
          rw [hqv]
          exact msorted_mapUpd _ _ _ v3 hv3s

/-- The empty grouping structure is sorted. -/
theorem msorted3_nil : msorted3 [] := ⟨List.Pairwise.nil, by simp⟩

/-- Folding records into a sorted grouping structure appends, per
`(run, iteration, query)` key, exactly the matching records in input
order. -/
theorem mlook3_group_fold :
    ∀ (rs : List trec_result) (m : smap (smap (smap (List trec_result)))),
      msorted3 m → ∀ a b c,
      mlook3 (rs.foldl trecGroupStep m) a b c =
        appendOpt (mlook3 m a b c)
          (rs.filter (fun r => r.run_id == a && r.iteration == b && r.query_id == c)) := by
  intro rs
  induction rs with
  | nil =>
    intro m _ a b c
    simp only [List.foldl_nil, List.filter_nil]
    rcases h : mlook3 m a b c with _ | l
    · rfl
    · simp [appendOpt]
  | cons r rs ih =>
    intro m hm a b c
    rw [List.foldl_cons, List.filter_cons,
      ih (trecGroupStep m r) (msorted3_trecGroupStep m r hm) a b c,
      mlook3_trecGroupStep m r hm a b c]
    by_cases hmatch : a = r.run_id ∧ b = r.iteration ∧ c = r.query_id
    · rw [if_pos hmatch]
      obtain ⟨h1, h2, h3⟩ := hmatch
      have hbool : (r.run_id == a && r.iteration == b && r.query_id == c) = true := by
        simp [h1.symm, h2.symm, h3.symm]
      rw [hbool, if_pos rfl]
      rcases h : mlook3 m a b c with _ | l0
      · simp [appendOpt]
      · simp [appendOpt]
    · rw [if_neg hmatch]
      have hbool : (r.run_id == a && r.iteration == b && r.query_id == c) = false := by
        by_contra hcon
        apply hmatch
        have hb2 : (r.run_id == a && r.iteration == b && r.query_id == c) = true := by
          revert hcon
          cases r.run_id == a && r.iteration == b && r.query_id == c
          · intro hcon; exact absurd rfl hcon
          · intro _; rfl
        simp only [Bool.and_eq_true, beq_iff_eq] at hb2
        exact ⟨hb2.1.1.symm, hb2.1.2.symm, hb2.2.symm⟩
      rw [hbool]
      simp only [Bool.false_eq_true, if_false]

/-- The grouping lookup in closed form: exactly the records filtered on
all three keys, in input order; `none` when no record matches. -/
theorem mlook3_group_eq (records : List trec_result) (a b c : String) :
    mlook3 (group records) a b c =
      (let l := records.filter (fun r => r.run_id == a && r.iteration == b && r.query_id == c)
       if l.isEmpty then none else some l) := by
  rw [group, mlook3_group_fold records [] msorted3_nil a b c]
  have h0 : mlook3 ([] : smap (smap (smap (List trec_result)))) a b c = none := rfl
  rw [h0]
  rcases hf : records.filter (fun r => r.run_id == a && r.iteration == b && r.query_id == c)
    with _ | ⟨x, xs⟩
  · rw [hf]
    rfl
  · rw [hf]
    rfl

/-- The grouping structure is sorted at all three levels. -/
theorem msorted3_group (records : List trec_result) : msorted3 (group records) := by
  rw [group]
  have h : ∀ (rs : List trec_result) (m : smap (smap (smap (List trec_result)))),
      msorted3 m → msorted3 (rs.foldl trecGroupStep m) := by
    intro rs
    induction rs with
    | nil =>
      intro m hm
      exact hm
    | cons r rs ih =>
      intro m hm
      exact ih _ (msorted3_trecGroupStep m r hm)
  exact h records [] msorted3_nil

/-- Folding judgments into the per-query unordered map appends, per
query key, exactly the matching judgments in input order. -/
theorem mlook_gbq_fold :
    ∀ (rs : List trec_rel) (m : smap (List trec_rel)) (q : String),
      mlook q (rs.foldl (fun m2 rel => updAssoc rel.query_id [] (fun l => l ++ [rel]) m2) m) =
        appendOpt (mlook q m) (rs.filter (fun x => x.query_id == q)) := by
  intro rs
  induction rs with
  | nil =>
    intro m q
    simp only [List.foldl_nil, List.filter_nil]
    rcases h : mlook q m with _ | l
    · rfl
    · simp [appendOpt]
  | cons rel rs ih =>
    intro m q
    rw [List.foldl_cons, List.filter_cons, ih, mlook_updAssoc rel.query_id q [] _ m]
    by_cases hq : q = rel.query_id
    · rw [if_pos hq, hq]
      have hbool : (rel.query_id == rel.query_id) = true := by simp
      rw [hbool, if_pos rfl]
      rcases h : mlook rel.query_id m with _ | l0
      · simp [appendOpt]
      · simp [appendOpt]
    · rw [if_neg hq]
      have hbool : (rel.query_id == q) = false := by
        rw [beq_eq_false_iff_ne]
        exact fun h => hq h.symm
      rw [hbool]
      simp only [Bool.false_eq_true, if_false]

/-- `group_by_query` lookup: the judgments of a query in input order
(the empty list for a query with no judgments). -/
theorem mlook_group_by_query (rels : List trec_rel) (q : String) :
    (mlook q (group_by_query rels)).getD [] = rels.filter (fun x => x.query_id == q) := by
  rw [group_by_query, mlook_gbq_fold rels [] q]
  have h0 : mlook q ([] : smap (List trec_rel)) = none := rfl
  rw [h0]
  rcases hf : rels.filter (fun x => x.query_id == q) with _ | ⟨x, xs⟩
  · rw [hf]
    rfl
  · rw [hf]
    rfl

/-- Folding judgments into the relevance map: the last judgment in
input order for a document wins. -/
theorem mlook_relmap_fold :
    ∀ (rs : List trec_rel) (m : smap ℤ) (d : String),
      mlook d (rs.foldl (fun m2 rel => updAssoc rel.document_id 0 (fun _ => rel.relevance) m2) m) =
        match (rs.filter (fun x => x.document_id == d)).getLast? with
        | some x => some x.relevance
        | none => mlook d m := by
  intro rs
  induction rs with
  | nil =>
    intro m d
    simp
  | cons rel rs ih =>
    intro m d
    rw [List.foldl_cons, List.filter_cons, ih, mlook_updAssoc rel.document_id d 0 _ m]
    by_cases hd : d = rel.document_id
    · rw [if_pos hd, hd]
      have hbool : (rel.document_id == rel.document_id) = true := by simp
      rw [hbool, if_pos rfl]
      rcases hfil : rs.filter (fun x => x.document_id == rel.document_id) with _ | ⟨y, ys⟩
      · rw [hfil, List.getLast?_nil, List.getLast?_singleton]
      · rw [hfil, List.getLast?_cons_cons]
        rcases hgl : (y :: ys).getLast? with _ | z
        · rw [List.getLast?_eq_none_iff] at hgl
          exact absurd hgl (by simp)
        · rfl
    · rw [if_neg hd]
      have hbool : (rel.document_id == d) = false := by
        rw [beq_eq_false_iff_ne]
        exact fun h => hd h.symm
      rw [hbool]
      simp only [Bool.false_eq_true, if_false]

/-- The relevance assigned by `annotate_single`: the last matching
judgment's value, or the default `0`. -/
theorem mlook_buildRelmap (rels : List trec_rel) (d : String) :
    (mlook d (buildRelmap rels)).getD 0 =
      ((rels.filter (fun x => x.document_id == d)).getLast?).elim 0 trec_rel.relevance := by
  rw [buildRelmap, mlook_relmap_fold rels [] d]
  rcases hl : (rels.filter (fun x => x.document_id == d)).getLast? with _ | x
  · rw [hl]
    rfl
  · rw [hl]
    rfl

/-- Annotation only rewrites the innermost per-query lists: a group
lookup in the annotated structure is the raw group run through
`annotate_single` with that query's judgments. -/
theorem mlook3_annotate (results : List trec_result) (rels : List trec_rel) (a b c : String) :
    mlook3 (annotate results rels) a b c =
      (mlook3 (group results) a b c).map
        (fun l => annotate_single l (rels.filter (fun x => x.query_id == c))) := by
  simp only [annotate, mlook3]
  rw [mlook_map_structure
    (fun _ m2 => m2.map (fun ip =>
      (ip.1, ip.2.map (fun qp =>
        (qp.1, annotate_single qp.2 ((mlook qp.1 (group_by_query rels)).getD []))))))
    a (group results)]
  generalize mlook a (group results) = oa
  rcases oa with _ | m2
  · simp [mlook]
  · rw [Option.map_some', Option.getD_some, Option.getD_some]
    rw [mlook_map_structure
      (fun _ m3 => m3.map (fun qp =>
        (qp.1, annotate_single qp.2 ((mlook qp.1 (group_by_query rels)).getD []))))
      b m2]
    generalize mlook b m2 = ob
    rcases ob with _ | m3
    · simp [mlook]
    · rw [Option.map_some', Option.getD_some, Option.getD_some]
      rw [mlook_map_structure
        (fun q l => annotate_single l ((mlook q (group_by_query rels)).getD []))
        c m3]
      refine congrArg (fun f => Option.map f (mlook c m3)) ?_
      funext l
      show annotate_single l ((mlook c (group_by_query rels)).getD []) = _
      rw [mlook_group_by_query rels c]

/-- `annotate_single` leaves every field except `relevance` unchanged. -/
theorem map_coreFields_annotate_single (l0 : List trec_result) (rs : List trec_rel) :
    (annotate_single l0 rs).map coreFields = l0.map coreFields := by
  rw [annotate_single, List.map_map]
  exact List.map_congr_left (fun r _ => rfl)

/-! ## Claim theorems: grouping and annotation -/

/-- Claim C4: `group` produces the three-level mapping in which every
`(run_id, iteration, query_id)` key stores exactly the subsequence of
input records carrying those key values, in original input order (a key
combination with no records is absent), and the keys at each of the
three levels are in strictly increasing lexicographic order. -/
theorem group_spec (records : List trec_result) :
    (∀ a b c, mlook3 (group records) a b c =
      (let l := records.filter (fun r => r.run_id == a && r.iteration == b && r.query_id == c)
       if l.isEmpty then none else some l))
    ∧ msorted3 (group records) :=
  ⟨fun a b c => mlook3_group_eq records a b c, msorted3_group records⟩

/-- Claim C5: after annotation, a record whose document id has no
judgment for its query carries relevance `0` and no error is raised; a
judged document id carries the judged value — the last one in input
order when the same document is judged more than once for the query. -/
theorem annotate_missing_judgment_spec (results : List trec_result) (rels : List trec_rel)
    (a b c : String) (l : List trec_result)
    (h : mlook3 (annotate results rels) a b c = some l) :
    ∀ r ∈ l, r.relevance =
      ((rels.filter (fun x => x.query_id == c && x.document_id == r.document_id)).getLast?).elim
        0 trec_rel.relevance := by
  rw [mlook3_annotate] at h
  rcases h0 : mlook3 (group results) a b c with _ | l0
  · rw [h0] at h
    exact absurd h (by simp)
  · rw [h0] at h
    simp only [Option.map] at h
    injection h with h
    intro r hr
    rw [← h] at hr
    rw [annotate_single] at hr
    rcases List.mem_map.mp hr with ⟨r0, _, hr0⟩
    rw [← hr0]
    dsimp only
    rw [mlook_buildRelmap (rels.filter (fun x => x.query_id == c)) r0.document_id,
      List.filter_filter]
    have hcomm : rels.filter (fun x => (x.document_id == r0.document_id) && (x.query_id == c))
        = rels.filter (fun x => (x.query_id == c) && (x.document_id == r0.document_id)) :=
      List.filter_congr (fun x _ => Bool.and_comm _ _)
    rw [hcomm]

/-- Claim C8: annotation mutates only the `relevance` field — every
stored group agrees with the corresponding filtered input records on
`query_id`, `iteration`, `document_id`, `rank`, `score` and `run_id`. -/
theorem annotate_frame_spec (results : List trec_result) (rels : List trec_rel)
    (a b c : String) (l : List trec_result)
    (h : mlook3 (annotate results rels) a b c = some l) :
    l.map coreFields =
      (results.filter (fun r => r.run_id == a && r.iteration == b && r.query_id == c)).map
        coreFields := by
  rw [mlook3_annotate, mlook3_group_eq] at h
  rcases hf : results.filter (fun r => r.run_id == a && r.iteration == b && r.query_id == c)
    with _ | ⟨x, xs⟩
  · rw [hf] at h
    simp at h
  · rw [hf] at h
    simp only [List.isEmpty_cons, if_false, Option.map, Bool.false_eq_true] at h
    injection h with h
    rw [← h, map_coreFields_annotate_single, hf]

/-- Witness for C5: two records in one group, one judged at relevance
`2`, the other undocumented and annotated `0`. -/
theorem annotate_missing_judgment_spec_witness :
    mlook3 (annotate
        [⟨"040", "Q0", "ZF08-175-870", 0, 4238, "R0", 0⟩,
         ⟨"040", "Q0", "ZF08-175-871", 1, 4238, "R0", 0⟩]
        [⟨"040", "Q0", "ZF08-175-870", 2⟩]) "R0" "Q0" "040" =
      some [⟨"040", "Q0", "ZF08-175-870", 0, 4238, "R0", 2⟩,
            ⟨"040", "Q0", "ZF08-175-871", 1, 4238, "R0", 0⟩] ∧
    (⟨"040", "Q0", "ZF08-175-871", 1, 4238, "R0", 0⟩ : trec_result).relevance =
      (([⟨"040", "Q0", "ZF08-175-870", 2⟩] : List trec_rel).filter
          (fun x => x.query_id == "040" && x.document_id ==
            (⟨"040", "Q0", "ZF08-175-871", 1, 4238, "R0", 0⟩ : trec_result).document_id)).getLast?.elim
        0 trec_rel.relevance :=
  ⟨by rfl,
    annotate_missing_judgment_spec
      [⟨"040", "Q0", "ZF08-175-870", 0, 4238, "R0", 0⟩,
       ⟨"040", "Q0", "ZF08-175-871", 1, 4238, "R0", 0⟩]
      [⟨"040", "Q0", "ZF08-175-870", 2⟩] "R0" "Q0" "040"
      [⟨"040", "Q0", "ZF08-175-870", 0, 4238, "R0", 2⟩,
       ⟨"040", "Q0", "ZF08-175-871", 1, 4238, "R0", 0⟩] (by rfl)
      ⟨"040", "Q0", "ZF08-175-871", 1, 4238, "R0", 0⟩ (by simp)⟩

/-- Witness for C8: an unjudged record passes through annotation with
every non-relevance field unchanged. -/
theorem annotate_frame_spec_witness :
    mlook3 (annotate [⟨"030", "Q0", "ZF08-175-870", 0, 4238, "R0", 0⟩] []) "R0" "Q0" "030" =
      some [⟨"030", "Q0", "ZF08-175-870", 0, 4238, "R0", 0⟩] ∧
    ([⟨"030", "Q0", "ZF08-175-870", 0, 4238, "R0", 0⟩] : List trec_result).map coreFields =
      (([⟨"030", "Q0", "ZF08-175-870", 0, 4238, "R0", 0⟩] : List trec_result).filter
        (fun r => r.run_id == "R0" && r.iteration == "Q0" && r.query_id == "030")).map
        coreFields :=
  ⟨by rfl,
    annotate_frame_spec [⟨"030", "Q0", "ZF08-175-870", 0, 4238, "R0", 0⟩] [] "R0" "Q0" "030"
      [⟨"030", "Q0", "ZF08-175-870", 0, 4238, "R0", 0⟩] (by rfl)⟩
